import Mathlib

/-!
Verification development for the `quantum_monte_carlo` transform of this
repository (file `pennylane/transforms/qmc.py`) and for the
differentiable-interface tape protocol exercised by
`tests/beta/interfaces/test_tape_torch.py`.

The gate decomposition routines `_apply_controlled_z` and
`_apply_controlled_v` are embedded as functions emitting gate lists, and a
computable state-vector semantics over the field ℚ(√2) is used to compare
the emitted circuits with the reference controlled unitaries.
-/

/-- Scalar field for circuit amplitudes: numbers of the form `u + v·√2`
with `u v : ℚ`.  Every amplitude arising from the gates used by the
decomposition routines (Pauli-X, Hadamard, multi-controlled-X, CZ) lies in
this ring, and equality is decidable, so circuits can be evaluated
concretely. -/
@[ext]
structure QRt2 where
  u : ℚ
  v : ℚ
  deriving DecidableEq

instance : Zero QRt2 := ⟨⟨0, 0⟩⟩

instance : One QRt2 := ⟨⟨1, 0⟩⟩

instance : Add QRt2 := ⟨fun p q => ⟨p.u + q.u, p.v + q.v⟩⟩

instance : Neg QRt2 := ⟨fun p => ⟨-p.u, -p.v⟩⟩

instance : Mul QRt2 := ⟨fun p q => ⟨p.u * q.u + 2 * p.v * q.v, p.u * q.v + p.v * q.u⟩⟩

@[simp] theorem QRt2.zero_u : (0 : QRt2).u = 0 := rfl

@[simp] theorem QRt2.zero_v : (0 : QRt2).v = 0 := rfl

@[simp] theorem QRt2.one_u : (1 : QRt2).u = 1 := rfl

@[simp] theorem QRt2.one_v : (1 : QRt2).v = 0 := rfl

@[simp] theorem QRt2.add_u (p q : QRt2) : (p + q).u = p.u + q.u := rfl

@[simp] theorem QRt2.add_v (p q : QRt2) : (p + q).v = p.v + q.v := rfl

@[simp] theorem QRt2.neg_u (p : QRt2) : (-p).u = -p.u := rfl

@[simp] theorem QRt2.neg_v (p : QRt2) : (-p).v = -p.v := rfl

@[simp] theorem QRt2.mul_u (p q : QRt2) : (p * q).u = p.u * q.u + 2 * p.v * q.v := rfl

@[simp] theorem QRt2.mul_v (p q : QRt2) : (p * q).v = p.u * q.v + p.v * q.u := rfl

instance : AddCommGroup QRt2 := by
  refine
  { add := (· + ·)
    zero := (0 : QRt2)
    sub := fun p q => p + -q
    neg := Neg.neg
    nsmul := @nsmulRec QRt2 ⟨0⟩ ⟨(· + ·)⟩
    zsmul := @zsmulRec QRt2 ⟨0⟩ ⟨(· + ·)⟩ ⟨Neg.neg⟩ (@nsmulRec QRt2 ⟨0⟩ ⟨(· + ·)⟩)
    add_assoc := ?_
    zero_add := ?_
    add_zero := ?_
    neg_add_cancel := ?_
    add_comm := ?_ } <;>
  intros <;>
  ext <;>
  simp <;>
  ring

instance : CommRing QRt2 := by
  refine
  { (inferInstance : AddCommGroup QRt2) with
    mul := (· * ·)
    one := (1 : QRt2)
    npow := @npowRec QRt2 ⟨1⟩ ⟨(· * ·)⟩
    add_comm := ?_
    left_distrib := ?_
    right_distrib := ?_
    zero_mul := ?_
    mul_zero := ?_
    mul_assoc := ?_
    one_mul := ?_
    mul_one := ?_
    mul_comm := ?_ } <;>
  intros <;>
  ext <;>
  simp <;>
  ring

/-- The amplitude `1/√2 = (1/2)·√2` introduced by a Hadamard gate. -/
def invSqrt2 : QRt2 := ⟨0, 1 / 2⟩

@[simp] theorem invSqrt2_u : invSqrt2.u = 0 := rfl

@[simp] theorem invSqrt2_v : invSqrt2.v = 1 / 2 := rfl

/-!
## Gate model and embedding of `pennylane/transforms/qmc.py`

A queued gate is one of the four primitives used by the decomposition
routines.  Wires are natural numbers, control values are booleans
(`false` for a `"0"` control, `true` for a `"1"` control).
-/

/-- The gate primitives queued by the decomposition routines. -/
inductive Gate where
  | pauliX (wire : Nat)
  | hadamard (wire : Nat)
  | mcx (control_wires : List Nat) (target : Nat) (control_values : List Bool)
      (work_wires : Option (List Nat))
  | cz (wire1 wire2 : Nat)
  deriving DecidableEq

/-- Errors of the embedded routines: a local index error (Python raises
`IndexError` when `wires[0]` is taken on an empty sequence) and the
dimension-mismatch error raised by the external multi-controlled-X
primitive when its control-value string and control-wire list disagree in
length. -/
inductive QErr where
  | indexError
  | dimensionMismatch
  deriving DecidableEq

/-- The external `MultiControlledX` primitive (the operator library is an
external collaborator; per the spec's error taxonomy it surfaces a
dimension mismatch when the control-value string length differs from the
control-wire count, and otherwise queues the gate). -/
def MultiControlledX (control_wires : List Nat) (target : Nat) (control_values : List Bool)
    (work_wires : Option (List Nat)) : Except QErr Gate :=
  if control_values.length = control_wires.length then
    Except.ok (Gate.mcx control_wires target control_values work_wires)
  else
    Except.error QErr.dimensionMismatch

/-- The control-value string `"0" * (len(wires) - 1) + "1"` built at
line 44 of `qmc.py`. -/
def cz_control_values (wires : List Nat) : List Bool :=
  List.replicate (wires.length - 1) false ++ [true]

/-- The control-wire list `Wires(wires[1:]) + control_wire` built at
line 45 of `qmc.py`. -/
def cz_control_wires (wires : List Nat) (control_wire : Nat) : List Nat :=
  wires.tail ++ [control_wire]

/-- Embedding of `_apply_controlled_z(wires, control_wire, work_wires)`:
the ordered list of gates the routine queues.  `wires[0]` on an empty
wires sequence is a local index error; otherwise the routine queues
`PauliX, Hadamard, MultiControlledX, Hadamard, PauliX` on the first wire,
where the multi-controlled-X is validated by the external primitive. -/
def apply_controlled_z (wires : List Nat) (control_wire : Nat)
    (work_wires : Option (List Nat)) : Except QErr (List Gate) :=
  match wires with
  | [] => Except.error QErr.indexError
  | target :: rest =>
    match MultiControlledX (cz_control_wires (target :: rest) control_wire) target
        (cz_control_values (target :: rest)) work_wires with
    | Except.error e => Except.error e
    | Except.ok g =>
      Except.ok [Gate.pauliX target, Gate.hadamard target, g,
        Gate.hadamard target, Gate.pauliX target]

/-- Embedding of `_apply_controlled_v(rotation_wire, control_wire)`: the
routine queues a single `CZ(wires=[control_wire, rotation_wire])`. -/
def apply_controlled_v (rotation_wire : Nat) (control_wire : Nat) : List Gate :=
  [Gate.cz control_wire rotation_wire]

/-- Embedding of `quantum_monte_carlo(fn, estimation_wires)`.  A function
with queuing side effects is modelled as taking the ambient queue and
returning the extended queue together with its return value; the returned
wrapper calls `fn` on the given arguments for its queuing side effect and
returns `none` (Python's `None`, as the wrapper body has no return
statement). -/
def quantum_monte_carlo {α β : Type} (fn : α → List Gate → List Gate × β)
    (estimation_wires : List Nat) : α → List Gate → List Gate × Option β :=
  fun args queue => ((fn args queue).1, none)

/-!
## State-vector semantics

A computational basis state on `m` wires is a list of `m` bits (entry `i`
is the bit of wire `i`); a state vector is a formal linear combination of
basis states with `QRt2` amplitudes, represented as a list of
(amplitude, basis state) pairs.  `coeff` reads off the amplitude of a
basis state, so two representations are compared coefficientwise.
-/

/-- Formal linear combination of basis states. -/
abbrev Vec := List (QRt2 × List Bool)

/-- Flip the bit of wire `w`. -/
def flipBit (w : Nat) (b : List Bool) : List Bool :=
  b.set w (!b.getD w false)

/-- Do all control wires carry their required control values? -/
def condSat (control_wires : List Nat) (control_values : List Bool) (b : List Bool) : Bool :=
  (control_wires.zip control_values).all fun p => b.getD p.1 false == p.2

/-- Action of one gate on one basis state, as a state vector.
Pauli-X flips the target bit; Hadamard maps `|0⟩ ↦ (|0⟩ + |1⟩)/√2` and
`|1⟩ ↦ (|0⟩ - |1⟩)/√2` on its wire; the multi-controlled-X flips the
target bit when every control wire carries its control value; CZ flips
the sign when both its wires carry bit 1. -/
def applyGate : Gate → List Bool → Vec
  | Gate.pauliX w, b => [(1, flipBit w b)]
  | Gate.hadamard w, b =>
    if b.getD w false then
      [(invSqrt2, b.set w false), (-invSqrt2, b.set w true)]
    else
      [(invSqrt2, b.set w false), (invSqrt2, b.set w true)]
  | Gate.mcx cws t cvs _, b =>
    if condSat cws cvs b then [(1, flipBit t b)] else [(1, b)]
  | Gate.cz w1 w2, b =>
    if b.getD w1 false && b.getD w2 false then [(-1, b)] else [(1, b)]

/-- Linear extension of a gate's action to state vectors. -/
def applyGateVec (g : Gate) : Vec → Vec
  | [] => []
  | p :: v => ((applyGate g p.2).map fun q => (p.1 * q.1, q.2)) ++ applyGateVec g v

/-- Run a gate list left to right on a state vector. -/
def runGates : List Gate → Vec → Vec
  | [], v => v
  | g :: gs, v => runGates gs (applyGateVec g v)

/-- Amplitude of basis state `b` in the formal combination `v`. -/
def coeff : Vec → List Bool → QRt2
  | [], _ => 0
  | p :: v, b => (if p.2 = b then p.1 else 0) + coeff v b

/-!
## Reference unitaries

The reference controlled-Z follows the claim's and spec's words: the
controlled application, conditioned on wire `n`, of `Z = I - 2|0⟩⟨0|` on
wires `0..n-1` (phase `-1` exactly on the all-zero register with the
control bit set).  The reference controlled-V follows the spec's words:
`V` is a Pauli-Z on the designated ancilla (rotation) wire `n-1`,
controlled on wire `n`. -/

/-- Reference phase of the controlled-`(I - 2|0⟩⟨0|)` unitary on wires
`0..n-1`, controlled on wire `n`, at a computational basis state. -/
def refControlledZPhase (n : Nat) (b : List Bool) : QRt2 :=
  if ((List.range n).all fun i => !b.getD i false) && b.getD n false then -1 else 1

/-- The reference controlled-Z unitary applied to basis state `b`, as a
state vector (it is diagonal). -/
def refControlledZVec (n : Nat) (b : List Bool) : Vec :=
  [(refControlledZPhase n b, b)]

/-- Reference phase of the controlled-V unitary: Pauli-Z on the rotation
(ancilla) wire `n-1`, controlled on wire `n`. -/
def refControlledVPhase (n : Nat) (b : List Bool) : QRt2 :=
  if b.getD n false && b.getD (n - 1) false then -1 else 1

/-- The reference controlled-V unitary applied to basis state `b`, as a
state vector (it is diagonal). -/
def refControlledVVec (n : Nat) (b : List Bool) : Vec :=
  [(refControlledVPhase n b, b)]

/-!
## Helper lemmas for the controlled-Z decomposition
-/

theorem apply_controlled_z_cons (t : Nat) (rest : List Nat) (c : Nat)
    (ww : Option (List Nat)) :
    apply_controlled_z (t :: rest) c ww =
      Except.ok [Gate.pauliX t, Gate.hadamard t,
        Gate.mcx (rest ++ [c]) t (List.replicate rest.length false ++ [true]) ww,
        Gate.hadamard t, Gate.pauliX t] := by
  simp [apply_controlled_z, MultiControlledX, cz_control_values, cz_control_wires]

/-- The control condition built by `_apply_controlled_z`: remaining wires
required at `"0"`, appended control wire required at `"1"`. -/
theorem condSat_append (rest : List Nat) (c : Nat) (b : List Bool) :
    condSat (rest ++ [c]) (List.replicate rest.length false ++ [true]) b
      = ((rest.all fun w => !b.getD w false) && b.getD c false) := by
  induction rest with
  | nil => cases hb : b[c]?.getD false <;> simp [condSat, hb]
  | cons w ws ih =>
    simp only [condSat, List.getD_eq_getElem?_getD] at ih
    cases hw : b[w]?.getD false <;>
      simp [condSat, List.replicate_succ, hw, ih]

/-- The multi-controlled-X condition on wires `1..m` of a basis state
`z :: t`, expressed on the tail `t`: wires `0..m-1` of `t` all at bit 0
and wire `m` of `t` (the control wire) at bit 1. -/
def mczCond (m : Nat) (t : List Bool) : Bool :=
  ((List.range m).all fun i => !t.getD i false) && t.getD m false

theorem condSat_range_tail (m : Nat) (z : Bool) (t : List Bool) :
    condSat ((List.range m).map Nat.succ ++ [m + 1])
      (List.replicate m false ++ [true]) (z :: t) = mczCond m t := by
  have h := condSat_append ((List.range m).map Nat.succ) (m + 1) (z :: t)
  simp only [List.length_map, List.length_range] at h
  rw [h, mczCond]
  simp [List.all_map, Function.comp_def]

theorem refControlledZPhase_cons (m : Nat) (y : Bool) (t : List Bool) :
    refControlledZPhase (m + 1) (y :: t) = if !y && mczCond m t then -1 else 1 := by
  rw [refControlledZPhase, List.range_succ_eq_map, mczCond]
  simp [List.all_map, Function.comp_def, Bool.and_assoc]

/-- Evaluation of the five-gate sequence `X·H·MCX·H·X` (target wire 0)
emitted by `_apply_controlled_z`, on an arbitrary basis state `y :: t`:
it acts diagonally, with phase `-1` exactly when the target bit is 0 and
the control condition holds on the remaining wires. -/
theorem cz_run (cws : List Nat) (cvs : List Bool) (ww : Option (List Nat)) (y P : Bool)
    (t : List Bool) (hf : condSat cws cvs (false :: t) = P)
    (ht : condSat cws cvs (true :: t) = P) (b' : List Bool) :
    coeff (runGates [Gate.pauliX 0, Gate.hadamard 0, Gate.mcx cws 0 cvs ww,
      Gate.hadamard 0, Gate.pauliX 0] [(1, y :: t)]) b'
      = (if !y && P then -1 else 1) * coeff [(1, y :: t)] b' := by
  cases y <;> cases P <;>
  · simp only [runGates, applyGateVec, applyGate, flipBit, List.getD_cons_zero,
      List.set_cons_zero, Bool.not_false, Bool.not_true, hf, ht, if_true, if_false,
      List.map_cons, List.map_nil, List.append_nil, List.nil_append, List.cons_append,
      coeff, Bool.and_self, Bool.and_false, Bool.and_true, Bool.false_and, Bool.true_and]
    by_cases h0 : (false : Bool) :: t = b' <;> by_cases h1 : (true : Bool) :: t = b'
    · exact absurd (h0.trans h1.symm) (by simp)
    all_goals
      try simp only [h0, h1, if_true, if_false, if_neg, if_pos, not_false_iff]
    all_goals
      try simp [h0, h1]
    all_goals
      try (ext <;> simp <;> norm_num)

/-!
## Claims
-/

/-- Claim C1: for every wire count `n ≥ 2`, with wires `0..n-1` and
control wire `n`, the unitary reconstructed from the gate sequence
emitted by `_apply_controlled_z(wires, control_wire, work_wires)` equals,
up to an irrelevant global sign, the reference controlled-Z unitary of
dimension `2^n` (the controlled application of `Z = I - 2|0⟩⟨0|`
conditioned on the control wire), on every one of the `2^(n+1)`
computational basis inputs. -/
theorem claim_C1 (n : Nat) (hn : 2 ≤ n) :
    ∃ s : QRt2, (s = 1 ∨ s = -1) ∧
      ∀ gs, apply_controlled_z (List.range n) n none = Except.ok gs →
        ∀ b : List Bool, b.length = n + 1 →
          ∀ b', coeff (runGates gs [(1, b)]) b' = s * coeff (refControlledZVec n b) b' := by
  obtain ⟨m, rfl⟩ : ∃ m, n = m + 1 := ⟨n - 1, by omega⟩
  refine ⟨1, Or.inl rfl, ?_⟩
  intro gs hgs b hb b'
  rw [List.range_succ_eq_map, apply_controlled_z_cons] at hgs
  simp only [List.length_map, List.length_range] at hgs
  obtain rfl : _ = gs := by injection hgs
  cases b with
  | nil => simp at hb
  | cons y t =>
    rw [cz_run ((List.range m).map Nat.succ ++ [m + 1]) (List.replicate m false ++ [true])
      none y (mczCond m t) t (condSat_range_tail m false t) (condSat_range_tail m true t) b']
    simp only [refControlledZVec, refControlledZPhase_cons, coeff, one_mul]
    by_cases h : y :: t = b' <;> simp [h]

/-- Witness for C1 at `n = 2`: the hypotheses are discharged on the
concrete gate list emitted for wires `[0, 1]` with control wire `2` and
the concrete basis input `|001⟩`. -/
theorem claim_C1_witness :
    ∃ s : QRt2, (s = 1 ∨ s = -1) ∧
      coeff (runGates [Gate.pauliX 0, Gate.hadamard 0,
          Gate.mcx [1, 2] 0 [false, true] none, Gate.hadamard 0, Gate.pauliX 0]
        [(1, [false, false, true])]) [false, false, true]
        = s * coeff (refControlledZVec 2 [false, false, true]) [false, false, true] := by
  obtain ⟨s, hs, h⟩ := claim_C1 2 (by norm_num)
  exact ⟨s, hs, h [Gate.pauliX 0, Gate.hadamard 0,
    Gate.mcx [1, 2] 0 [false, true] none, Gate.hadamard 0, Gate.pauliX 0] rfl
    [false, false, true] rfl [false, false, true]⟩

/-- Claim C2: `_apply_controlled_v(rotation_wire, control_wire)` emits
exactly one two-qubit CZ gate between the control and rotation wires,
and for every `n ≥ 2` (rotation wire `n-1`, control wire `n`) the
resulting unitary equals, up to an irrelevant global sign, the reference
controlled-V unitary of dimension `2^n` on every computational basis
input. -/
theorem claim_C2 :
    (∀ rotation_wire control_wire,
      apply_controlled_v rotation_wire control_wire
        = [Gate.cz control_wire rotation_wire]) ∧
    ∀ n : Nat, 2 ≤ n → ∃ s : QRt2, (s = 1 ∨ s = -1) ∧
      ∀ b : List Bool, b.length = n + 1 →
        ∀ b', coeff (runGates (apply_controlled_v (n - 1) n) [(1, b)]) b'
          = s * coeff (refControlledVVec n b) b' := by
  refine ⟨fun _ _ => rfl, fun n hn => ⟨1, Or.inl rfl, fun b hb b' => ?_⟩⟩
  rcases eq_or_ne b b' with rfl | h
  · cases hcn : b[n]?.getD false <;> cases hcr : b[n - 1]?.getD false <;>
      simp [apply_controlled_v, runGates, applyGateVec, applyGate,
        refControlledVVec, refControlledVPhase, coeff, hcn, hcr]
  · cases hcn : b[n]?.getD false <;> cases hcr : b[n - 1]?.getD false <;>
      simp [apply_controlled_v, runGates, applyGateVec, applyGate,
        refControlledVVec, refControlledVPhase, coeff, hcn, hcr, h]

/-- Witness for C2 at `n = 2` with basis input `|011⟩` (rotation wire 1
and control wire 2 both set, so the reference phase is `-1`). -/
theorem claim_C2_witness :
    (apply_controlled_v 3 7 = [Gate.cz 7 3]) ∧
    ∃ s : QRt2, (s = 1 ∨ s = -1) ∧
      coeff (runGates (apply_controlled_v 1 2) [(1, [false, true, true])]) [false, true, true]
        = s * coeff (refControlledVVec 2 [false, true, true]) [false, true, true] := by
  refine ⟨claim_C2.1 3 7, ?_⟩
  obtain ⟨s, hs, h⟩ := claim_C2.2 2 (by norm_num)
  exact ⟨s, hs, h [false, true, true] rfl [false, true, true]⟩

/-- Claim C3: for every non-empty wires list `t :: rest`, the routine
queues exactly `PauliX t; Hadamard t; MultiControlledX` with control
wires `rest ++ [control_wire]`, target `t`, control values `"0"`
repeated `len wires - 1` times followed by `"1"`, and the given work
wires; `Hadamard t; PauliX t`, in this order. -/
theorem claim_C3 (t : Nat) (rest : List Nat) (control_wire : Nat)
    (work_wires : Option (List Nat)) :
    apply_controlled_z (t :: rest) control_wire work_wires =
      Except.ok [Gate.pauliX t, Gate.hadamard t,
        Gate.mcx (rest ++ [control_wire]) t
          (List.replicate ((t :: rest).length - 1) false ++ [true]) work_wires,
        Gate.hadamard t, Gate.pauliX t] := by
  simpa using apply_controlled_z_cons t rest control_wire work_wires

/-- Claim C4: for every non-empty wires list and any control wire, the
control-value string and control-wire list built by
`_apply_controlled_z` have equal length, both equal to `len wires`
(`len wires - 1` zero-controls plus one one-control), and the `wires[0]`
access is in bounds. -/
theorem claim_C4 (wires : List Nat) (control_wire : Nat) (h : wires ≠ []) :
    (cz_control_values wires).length = (cz_control_wires wires control_wire).length ∧
    (cz_control_values wires).length = wires.length ∧
    0 < wires.length := by
  cases wires with
  | nil => exact absurd rfl h
  | cons t rest => simp [cz_control_values, cz_control_wires]

/-- Witness for C4 on the concrete wires `[0, 1, 2]` with control wire
`3`. -/
theorem claim_C4_witness :
    ([0, 1, 2] : List Nat) ≠ [] ∧
    (cz_control_values [0, 1, 2]).length = (cz_control_wires [0, 1, 2] 3).length ∧
    (cz_control_values [0, 1, 2]).length = ([0, 1, 2] : List Nat).length ∧
    0 < ([0, 1, 2] : List Nat).length :=
  ⟨by decide, claim_C4 [0, 1, 2] 3 (by decide)⟩

/-- Counterexample to claim C9 as stated: on the empty wires list the
routine fails locally with the index error of the `wires[0]` access,
before the downstream multi-controlled-X primitive is ever reached, so it
is not the case that for every input no exception arises inside the
routine with mismatches surfacing only as the downstream dimension
mismatch. -/
theorem claim_C9_counterexample :
    apply_controlled_z [] 0 none = Except.error QErr.indexError ∧
    QErr.indexError ≠ QErr.dimensionMismatch :=
  ⟨rfl, by decide⟩

/-- Claim C9 (amended): `_apply_controlled_z` contains no local error
handling, and for every input with a non-empty wires list no exception is
raised or caught inside the routine: the call succeeds outright (in
particular the downstream multi-controlled-X length check, the only
conceivable error source, always passes); only the `wires[0]` access on
an empty wires list fails, locally. -/
theorem claim_C9 (wires : List Nat) (control_wire : Nat)
    (work_wires : Option (List Nat)) (h : wires ≠ []) :
    ∃ gs, apply_controlled_z wires control_wire work_wires = Except.ok gs := by
  cases wires with
  | nil => exact absurd rfl h
  | cons t rest => exact ⟨_, apply_controlled_z_cons t rest control_wire work_wires⟩

/-- Witness for the amended C9 on the concrete non-empty wires `[4, 5]`
with control wire `6`. -/
theorem claim_C9_witness :
    ([4, 5] : List Nat) ≠ [] ∧
    ∃ gs, apply_controlled_z [4, 5] 6 none = Except.ok gs :=
  ⟨by decide, claim_C9 [4, 5] 6 none (by decide)⟩

/-- Claim C10: for every function, every estimation-wires list and every
argument list, the wrapper returned by
`quantum_monte_carlo(fn, estimation_wires)` calls `fn` once with the
given arguments for its queuing side effect only (the resulting queue is
exactly the queue `fn` produces), always returns `None`, and never uses
`estimation_wires` (the wrapper is the same for any estimation-wires
value). -/
theorem claim_C10 {α β : Type} (fn : α → List Gate → List Gate × β)
    (estimation_wires : List Nat) (args : α) (queue : List Gate) :
    (quantum_monte_carlo fn estimation_wires args queue).1 = (fn args queue).1 ∧
    (quantum_monte_carlo fn estimation_wires args queue).2 = none ∧
    ∀ other_wires, quantum_monte_carlo fn other_wires = quantum_monte_carlo fn estimation_wires :=
  ⟨rfl, rfl, fun _ => rfl⟩

/-!
## Differentiable-interface wrapper (spec-modelled)

The implementation of the torch interface wrapper
(`pennylane/beta/interfaces/torch.py`) and of the beta `QuantumTape` is
not part of this excerpt — only its tests are — so the wrapper protocol
is modelled from the spec's words (section 4.3 "Differentiable-Interface
Wrapper", section 4.2, and the error taxonomy of section 7).
-/

/-- Modelled from the spec: a host numeric value bound to a tape
parameter (the host autodiff framework, a collaborator, supplies tensors
carrying a "requires gradient" marker; plain numerics carry none). -/
inductive HostVal where
  | tensor (requires_grad : Bool) (value : ℚ)
  | const (value : ℚ)
  deriving DecidableEq

/-- The "requires gradient" marker of a host value. -/
def HostVal.requiresGrad : HostVal → Bool
  | tensor g _ => g
  | const _ => false

/-- Modelled from the spec: a measurement terminator (expectation,
variance, sample, probability). -/
inductive Meas where
  | expval
  | variance
  | probs (wires : List Nat)
  | sample (shots : Nat)
  deriving DecidableEq

/-- Modelled from the spec: the quantum tape state relevant to the
wrapper protocol, missing from this excerpt together with the beta
`QuantumTape` class — the flattened parameter list (in queue order), the
ordered measurement terminators, the trainable-parameter index set, and
the interface metadata the wrapper attaches (interface tag, instance
class, bare-class reference, dtype). -/
structure Tape where
  params : List HostVal
  measurements : List Meas
  trainable : List Nat
  interface : Option String
  instanceClass : Option String
  bareClass : Option String
  dtype : Option String
  deriving DecidableEq

/-- Modelled from the spec: the trainable-set scan — the set of
flattened-parameter indices whose bound value is a host tensor marked
"requires gradient". -/
def trainableScan (params : List HostVal) : List Nat :=
  (List.range params.length).filter fun i => (params.getD i (HostVal.const 0)).requiresGrad

/-- Modelled from the spec: `TorchInterface.apply(tape, dtype=default)`
(file `pennylane/beta/interfaces/torch.py`, absent from the excerpt):
re-scans the tape's flattened parameters, replaces — not merges — the
trainable set with the scan's result, and augments the tape with the
interface metadata. -/
def TorchInterface.apply (tape : Tape) (dtype : String := "torch.float64") : Tape :=
  { tape with
    trainable := trainableScan tape.params
    interface := some "torch"
    instanceClass := some "TorchInterface"
    bareClass := some "QuantumTape"
    dtype := some dtype }

/-- Modelled from the spec: `get_parameters()` reads the flattened
parameter list at the trainable indices. -/
def Tape.get_parameters (tape : Tape) : List HostVal :=
  tape.trainable.map fun i => tape.params.getD i (HostVal.const 0)

/-- Modelled from the spec's shape conventions (section 6): expectation
and variance produce a scalar (length-1 row), probability on `k` wires a
vector of length `2^k`, sampling a vector of length `shots`. -/
def measShape : Meas → Nat
  | Meas.expval => 1
  | Meas.variance => 1
  | Meas.probs wires => 2 ^ wires.length
  | Meas.sample shots => shots

/-- Modelled from the spec: the execution output is either a single
stacked array of shape `(num_terminators, ...)` or a ragged sequence of
independently shaped per-terminator rows. -/
inductive ExecOutput where
  | stacked (rows : List (List ℚ))
  | ragged (rows : List (List ℚ))
  deriving DecidableEq

/-- The per-terminator rows of an execution output. -/
def ExecOutput.rows : ExecOutput → List (List ℚ)
  | stacked r => r
  | ragged r => r

/-- Are all entries of the list equal? -/
def allEqual : List Nat → Bool
  | [] => true
  | x :: xs => xs.all (· == x)

/-- Modelled from the spec: the wrapped execution result — the shaped
output, carrying the host graph's "requires gradient" marker (set iff
the trainable set is non-empty, since only trainable parameters are
attached to the backward node). -/
structure ExecResult where
  output : ExecOutput
  requires_grad : Bool
  deriving DecidableEq

/-- Modelled from the spec: `execute(device)` of the wrapper — it calls
the device on every measurement terminator, stacks the rows into one
array exactly when all terminator shapes (decided once from the tape's
measurement list) agree, and attaches the result to the host graph iff
some parameter is trainable. -/
def TorchInterface.execute (tape : Tape) (dev : Meas → List ℚ) : ExecResult :=
  { output :=
      if allEqual (tape.measurements.map measShape) then
        ExecOutput.stacked (tape.measurements.map dev)
      else
        ExecOutput.ragged (tape.measurements.map dev)
    requires_grad := !tape.trainable.isEmpty }

/-- Modelled from the spec: requesting backward differentiation on a
result outside the host graph fails with the host framework's native
"no gradient available" condition (the torch runtime error message the
tests match), propagated and not swallowed. -/
def backward (res : ExecResult) : Except String Unit :=
  if res.requires_grad then Except.ok ()
  else Except.error "element 0 of tensors does not require grad and does not have a grad_fn"

/-- Claim C5: applying the wrapper makes the tape's trainable set exactly
the set of flattened-parameter indices holding a gradient-marked host
tensor, replacing any prior trainable set; on the queued parameters
(tensor with grad, tensor without grad, tensor with grad, plain float)
the trainable set is `{0, 2}` and `get_parameters()` returns the two
gradient-marked tensors. -/
theorem claim_C5 :
    (∀ (tape : Tape) (dtype : String) (i : Nat),
      i ∈ (TorchInterface.apply tape dtype).trainable ↔
        i < tape.params.length ∧
          (tape.params.getD i (HostVal.const 0)).requiresGrad = true) ∧
    (∀ (tape : Tape) (prior : List Nat) (dtype : String),
      (TorchInterface.apply { tape with trainable := prior } dtype).trainable
        = (TorchInterface.apply tape dtype).trainable) ∧
    ∀ (ms : List Meas) (prior : List Nat) (itf icl bcl dt : Option String),
      (TorchInterface.apply
          ⟨[HostVal.tensor true (1 / 10), HostVal.tensor false (1 / 5),
            HostVal.tensor true (3 / 10), HostVal.const (2 / 5)],
           ms, prior, itf, icl, bcl, dt⟩).trainable = [0, 2] ∧
      (TorchInterface.apply
          ⟨[HostVal.tensor true (1 / 10), HostVal.tensor false (1 / 5),
            HostVal.tensor true (3 / 10), HostVal.const (2 / 5)],
           ms, prior, itf, icl, bcl, dt⟩).get_parameters
        = [HostVal.tensor true (1 / 10), HostVal.tensor true (3 / 10)] := by
  refine ⟨fun tape dtype i => ?_, fun tape prior dtype => rfl, fun ms prior itf icl bcl dt => ⟨rfl, rfl⟩⟩
  simp [TorchInterface.apply, trainableScan, List.mem_filter, List.mem_range]

/-- Claim C6: applying the differentiable-interface wrapper twice to the
same tape with the same dtype yields the same tape — same trainable set
and same interface metadata (interface tag, instance class, bare-class
reference) — as applying it once: wrapper application is idempotent. -/
theorem claim_C6 (tape : Tape) (dtype : String) :
    TorchInterface.apply (TorchInterface.apply tape dtype) dtype
      = TorchInterface.apply tape dtype := rfl

/-- Claim C7: for every tape with an empty trainable set, execution
succeeds with one result row per measurement terminator, and a
subsequent backward request fails with the host framework's native
"no gradient available" condition, propagated rather than swallowed. -/
theorem claim_C7 (tape : Tape) (dev : Meas → List ℚ) (h : tape.trainable = []) :
    (TorchInterface.execute tape dev).output.rows.length = tape.measurements.length ∧
    backward (TorchInterface.execute tape dev)
      = Except.error "element 0 of tensors does not require grad and does not have a grad_fn" := by
  constructor
  · simp only [TorchInterface.execute]
    by_cases hall : allEqual (tape.measurements.map measShape) = true <;>
      simp [hall, ExecOutput.rows]
  · simp [TorchInterface.execute, backward, h]

/-- Witness for C7 on a concrete tape with no trainable parameters and
two expectation terminators. -/
theorem claim_C7_witness :
    (Tape.mk [HostVal.const (1 / 5), HostVal.tensor false (1 / 10)]
        [Meas.expval, Meas.expval] [] none none none none).trainable = [] ∧
    (TorchInterface.execute
        (Tape.mk [HostVal.const (1 / 5), HostVal.tensor false (1 / 10)]
          [Meas.expval, Meas.expval] [] none none none none)
        (fun _ => [1])).output.rows.length
      = (Tape.mk [HostVal.const (1 / 5), HostVal.tensor false (1 / 10)]
          [Meas.expval, Meas.expval] [] none none none none).measurements.length ∧
    backward (TorchInterface.execute
        (Tape.mk [HostVal.const (1 / 5), HostVal.tensor false (1 / 10)]
          [Meas.expval, Meas.expval] [] none none none none)
        (fun _ => [1]))
      = Except.error "element 0 of tensors does not require grad and does not have a grad_fn" :=
  ⟨rfl, claim_C7 _ (fun _ => [1]) rfl⟩

/-- Claim C8: a tape mixing an expectation terminator (scalar row) and a
probability terminator (row of length 2) yields two independently shaped
per-terminator rows — a ragged sequence decided once from the tape's
measurement list — not a single stacked array; stacking into one array
of shape `(num_terminators, ...)` happens exactly when all terminators
produce equal shapes. -/
theorem claim_C8 :
    (∀ (tape : Tape) (dev : Meas → List ℚ) (w : Nat),
      tape.measurements = [Meas.expval, Meas.probs [w]] →
        (∀ m ∈ tape.measurements, (dev m).length = measShape m) →
          (TorchInterface.execute tape dev).output
              = ExecOutput.ragged [dev Meas.expval, dev (Meas.probs [w])] ∧
            (dev Meas.expval).length = 1 ∧ (dev (Meas.probs [w])).length = 2) ∧
    ∀ (tape : Tape) (dev : Meas → List ℚ),
      (∃ rows, (TorchInterface.execute tape dev).output = ExecOutput.stacked rows) ↔
        allEqual (tape.measurements.map measShape) = true := by
  constructor
  · intro tape dev w hm hdev
    refine ⟨?_, ?_, ?_⟩
    · simp [TorchInterface.execute, hm, measShape, allEqual]
    · simpa [measShape] using hdev Meas.expval (by simp [hm])
    · simpa [measShape] using hdev (Meas.probs [w]) (by simp [hm])
  · intro tape dev
    by_cases hall : allEqual (tape.measurements.map measShape) = true
    · exact ⟨fun _ => hall, fun _ => ⟨tape.measurements.map dev, by simp [TorchInterface.execute, hall]⟩⟩
    · constructor
      · rintro ⟨rows, hrows⟩
        rw [TorchInterface.execute] at hrows
        simp [hall] at hrows
      · intro hc
        exact absurd hc hall

/-- Witness for C8 on a concrete tape with an expectation and a
single-wire probability terminator and a shape-respecting device. -/
theorem claim_C8_witness :
    (Tape.mk [] [Meas.expval, Meas.probs [5]] [0] none none none none).measurements
        = [Meas.expval, Meas.probs [5]] ∧
    (TorchInterface.execute (Tape.mk [] [Meas.expval, Meas.probs [5]] [0] none none none none)
        (fun m => match m with
          | Meas.expval => [1]
          | Meas.probs _ => [0, 1]
          | Meas.variance => [1]
          | Meas.sample _ => [])).output
      = ExecOutput.ragged
          [(fun m => match m with
            | Meas.expval => [(1 : ℚ)]
            | Meas.probs _ => [0, 1]
            | Meas.variance => [1]
            | Meas.sample _ => []) Meas.expval,
           (fun m => match m with
            | Meas.expval => [(1 : ℚ)]
            | Meas.probs _ => [0, 1]
            | Meas.variance => [1]
            | Meas.sample _ => []) (Meas.probs [5])] := by
  refine ⟨rfl, ?_⟩
  exact (claim_C8.1 (Tape.mk [] [Meas.expval, Meas.probs [5]] [0] none none none none)
    (fun m => match m with
      | Meas.expval => [1]
      | Meas.probs _ => [0, 1]
      | Meas.variance => [1]
      | Meas.sample _ => []) 5 rfl
    (by intro m hm; fin_cases hm <;> rfl)).1
